import Mathlib

/-!
Verification of the Live Analytics Synchronization Core of the Spectator
repository (frontend/src/App.jsx and static/app.js), shallowly embedded in
Lean.  JavaScript numbers that the core only ever treats as integral epoch
seconds, counters or message rates are modelled as `Int`; JavaScript strings
as `String` (operated on through their `List Char` data); absent-or-null
object fields as `Option`.  JavaScript truthiness is made explicit through
the small `js*` helpers below.
-/

namespace Spectator

/-- JavaScript `s || ""` on a possibly-absent string field. -/
def jsOrEmpty (o : Option String) : String := o.getD ""

/-- JavaScript `s || d` on a possibly-absent string field: an absent field and
an empty string are both falsy and fall through to the default. -/
def jsOrDefault (o : Option String) (d : String) : String :=
  match o with
  | some s => if s = "" then d else s
  | none => d

/-- Truthiness of a possibly-absent number field: `null`/absent and `0` are falsy. -/
def jsTruthyInt (o : Option Int) : Bool :=
  match o with
  | some v => v != 0
  | none => false

/-- JavaScript `v || null` on a possibly-absent number field. -/
def jsOrNullInt (o : Option Int) : Option Int :=
  if jsTruthyInt o then o else none

/-! ## Character and list utilities used by the embedded parsers -/

/-- The alphabet of the regex `[a-zA-Z0-9_-]` in `parseVideoId`. -/
def idAlphabet : List Char :=
  "abcdefghijklmnopqrstuvwxyzABCDEFGHIJKLMNOPQRSTUVWXYZ0123456789_-".toList

/-- One character of the regex class `[a-zA-Z0-9_-]`. -/
def isIdChar (c : Char) : Bool := decide (c ∈ idAlphabet)

/-- The alphabet of the regex `[a-zA-Z0-9_]` in `parseTwitchChannel`. -/
def wordAlphabet : List Char :=
  "abcdefghijklmnopqrstuvwxyzABCDEFGHIJKLMNOPQRSTUVWXYZ0123456789_".toList

/-- One character of the regex class `[a-zA-Z0-9_]`. -/
def isWordChar (c : Char) : Bool := decide (c ∈ wordAlphabet)

/-- `value.trim()`: strip leading and trailing whitespace. -/
def trimChars (cs : List Char) : List Char :=
  (((cs.dropWhile Char.isWhitespace).reverse.dropWhile Char.isWhitespace)).reverse

/-- Whether `needle` occurs at the start of `hay`. -/
def startsWith : List Char → List Char → Bool
  | [], _ => true
  | _ :: _, [] => false
  | a :: as, b :: bs => a = b && startsWith as bs

/-- JavaScript `hay.includes(needle)`: substring occurrence. -/
def containsSub (needle : List Char) : List Char → Bool
  | [] => needle.isEmpty
  | c :: rest => startsWith needle (c :: rest) || containsSub needle rest

/-- Split at the first occurrence of `sep`: returns the part before it and,
when `sep` occurs, the part after it. -/
def splitFirst (sep : Char) : List Char → List Char × Option (List Char)
  | [] => ([], none)
  | c :: rest =>
    if c = sep then ([], some rest)
    else
      let p := splitFirst sep rest
      (c :: p.1, p.2)

/-- JavaScript `s.split(sep)` on characters (keeps empty pieces). -/
def splitOnChar (sep : Char) : List Char → List (List Char)
  | [] => [[]]
  | c :: rest =>
    match splitOnChar sep rest with
    | [] => [[c]]
    | g :: gs => if c = sep then [] :: g :: gs else (c :: g) :: gs

/-- JavaScript `pathname.replace("/", "")`: remove the first occurrence of `/`. -/
def removeFirstSlash (cs : List Char) : List Char :=
  match splitFirst '/' cs with
  | (a, none) => a
  | (a, some rest) => a ++ rest

/-! ## A model of the WHATWG `new URL(...)` constructor

Only the pieces the source consults are modelled: `hostname` (lower-cased,
port and userinfo stripped), `pathname` and the query string.  The model
requires an explicit `scheme://` prefix and a non-empty host, and rejects
(`none`, standing for the thrown `TypeError`) anything else; query
parameters are matched literally (the identifiers quantified over below
contain no percent-encoded characters). -/

structure UrlParts where
  hostname : List Char
  pathname : List Char
  query : List Char
deriving Repr, DecidableEq

/-- The query string of a URL remainder: the text between `?` and `#`. -/
def queryOf (afterPath : List Char) : List Char :=
  match afterPath with
  | '?' :: qs => qs.takeWhile (fun c => c != '#')
  | _ => []

def parseURL (cs : List Char) : Option UrlParts :=
  let scheme := cs.takeWhile Char.isAlpha
  let rest := cs.drop scheme.length
  if scheme.isEmpty then none
  else if startsWith "://".toList rest then
    let rest2 := rest.drop 3
    let auth := rest2.takeWhile (fun c => c != '/' && c != '?' && c != '#')
    let after := rest2.drop auth.length
    let hostport :=
      match splitFirst '@' auth with
      | (_, some h) => h
      | (h, none) => h
    let host := (hostport.takeWhile (fun c => c != ':')).map Char.toLower
    if host.isEmpty then none
    else
      let pathRaw := after.takeWhile (fun c => c != '?' && c != '#')
      let pathname := if pathRaw.isEmpty then ['/'] else pathRaw
      let afterPath := after.drop pathRaw.length
      some ⟨host, pathname, queryOf afterPath⟩
  else none

/-- `url.searchParams`: split the query on `&`, drop empty pieces, split each
piece at its first `=` (a piece without `=` maps to the empty value). -/
def queryPairs (q : List Char) : List (List Char × List Char) :=
  ((splitOnChar '&' q).filter (fun seg => !seg.isEmpty)).map
    (fun seg =>
      match splitFirst '=' seg with
      | (k, none) => (k, [])
      | (k, some v) => (k, v))

/-- `url.searchParams.get(key)` (with `has` deciding presence). -/
def getParam (u : UrlParts) (key : List Char) : Option (List Char) :=
  ((queryPairs u.query).find? (fun p => p.1 == key)).map (fun p => p.2)

/-- `url.pathname.split("/").filter(Boolean)`. -/
def pathSegs (u : UrlParts) : List (List Char) :=
  (splitOnChar '/' u.pathname).filter (fun seg => !seg.isEmpty)

/-- `parts.indexOf("live")` followed by the `parts[liveIndex + 1]` truthiness
check: the segment after the first `live` segment, when present and non-empty. -/
def liveNext : List (List Char) → Option (List Char)
  | [] => none
  | s :: rest =>
    if s = "live".toList then
      match rest with
      | [] => none
      | n :: _ => if n.isEmpty then none else some n
    else liveNext rest

/-! ## Reference parsing (App.jsx `parseVideoId` / `parseTwitchChannel`) -/

/-- The regex test `/^[a-zA-Z0-9_-]{11}$/`. -/
def validVideoId (cs : List Char) : Bool :=
  cs.length = 11 && cs.all isIdChar

/-- `parseVideoId` from App.jsx, on characters. -/
def parseVideoIdL (cs : List Char) : List Char :=
  if cs.isEmpty then []
  else
    let trimmed := trimChars cs
    if validVideoId trimmed then trimmed
    else
      match parseURL trimmed with
      | none => []
      | some u =>
        if containsSub "youtu.be".toList u.hostname then removeFirstSlash u.pathname
        else
          match getParam u "v".toList with
          | some v => v
          | none =>
            match liveNext (pathSegs u) with
            | some n => n
            | none => []

def parseVideoId (s : String) : String := String.mk (parseVideoIdL s.data)

/-- The regex test `/^[a-zA-Z0-9_]+$/`. -/
def validTwitchChannel (cs : List Char) : Bool :=
  !cs.isEmpty && cs.all isWordChar

/-- `parseTwitchChannel` from App.jsx, on characters. -/
def parseTwitchChannelL (cs : List Char) : List Char :=
  if cs.isEmpty then []
  else
    let trimmed := trimChars cs
    if validTwitchChannel trimmed then trimmed
    else
      match parseURL trimmed with
      | none => []
      | some u =>
        if !containsSub "twitch.tv".toList u.hostname then []
        else
          match pathSegs u with
          | [] => []
          | ch :: _ => if validTwitchChannel ch then ch else []

def parseTwitchChannel (s : String) : String := String.mk (parseTwitchChannelL s.data)

/-! ## Data model (App.jsx state and payload shapes) -/

/-- One element of the `ratePoints` payload array. -/
structure RatePoint where
  timestamp : Int
  rate : Int
deriving Repr, DecidableEq

/-- One element of the `summaryHistory` payload array: `timestamp` is the
runtime string (`mm:ss` / `hh:mm:ss`), `summary` the snapshot text. -/
structure HistoryEntry where
  timestamp : Option String
  summary : Option String
deriving Repr, DecidableEq

/-- One element of the `events` payload array. -/
structure KeywordEvent where
  timestamp : Option String
  keyword : Option String
deriving Repr, DecidableEq

/-- The parsed JSON body of a poll response.  `streamStart` is the field name
used by the written response contract, `streamStartTs` the one the code reads;
both are carried so that the difference is observable. -/
structure Payload where
  summary : Option String := none
  events : Option (List KeywordEvent) := none
  summaryHistory : Option (List HistoryEntry) := none
  videoTitle : Option String := none
  videoChannel : Option String := none
  rates : Option (List Int) := none
  ratePoints : Option (List RatePoint) := none
  streamStart : Option Int := none
  streamStartTs : Option Int := none
  updatedAt : Option Int := none
  error : Option String := none
deriving Repr, DecidableEq

/-- The React state of `App` that the claims are about. -/
structure AppState where
  isEditing : Bool := true
  draftInput : String := ""
  draftSource : String := "youtube"
  draftMode : String := "general"
  draftKeywords : String := ""
  draftThreshold : String := "2"
  activeStreamId : String := ""
  activeSource : String := "youtube"
  activeMode : String := "general"
  activeKeywords : String := ""
  activeThreshold : String := "2"
  status : String := "Idle"
  error : String := ""
  summary : String := ""
  events : List KeywordEvent := []
  history : List HistoryEntry := []
  videoTitle : String := "Waiting..."
  videoChannel : String := "Waiting..."
  updatedAt : Option Int := none
  rates : List Int := []
  rateLabels : List String := []
  ratePoints : List RatePoint := []
  streamStartTs : Option Int := none
deriving Repr, DecidableEq

/-! ## ConfigStager: `handleSubmit` (commit of a draft configuration) -/

/-- The identity key `source:ref`. -/
def identityKey (source ref : String) : String := source ++ ":" ++ ref

/-- The identifier obtained from the draft input by the platform-specific
parser (`isYouTube ? parseVideoId(draftInput) : parseTwitchChannel(draftInput)`). -/
def submittedId (st : AppState) : String :=
  if st.draftSource = "youtube" then parseVideoId st.draftInput
  else parseTwitchChannel st.draftInput

/-- `currentKey`: the identity key of the active configuration, or `""` when
no configuration is active. -/
def currentIdentityKey (st : AppState) : String :=
  if st.activeStreamId ≠ "" then identityKey st.activeSource st.activeStreamId else ""

/-- The block of state writes on the `streamChanged` path of `handleSubmit`. -/
def clearDerivedSeries (st : AppState) : AppState :=
  { st with
    summary := ""
    events := []
    history := []
    rates := []
    rateLabels := []
    ratePoints := []
    streamStartTs := none
    updatedAt := none
    videoTitle := "Waiting..."
    videoChannel := "Waiting..." }

/-- `handleSubmit` from App.jsx (the commit of the draft configuration). -/
def handleSubmit (st : AppState) : AppState :=
  let id := submittedId st
  if id = "" then
    { st with
      error :=
        if st.draftSource = "youtube" then
          "Paste a valid YouTube livestream link or video ID."
        else "Paste a valid Twitch channel or link." }
  else
    let nextKey := identityKey st.draftSource id
    let currentKey := currentIdentityKey st
    let streamChanged := nextKey ≠ currentKey
    let st1 := if streamChanged then clearDerivedSeries st else st
    { st1 with
      activeStreamId := id
      activeSource := st.draftSource
      activeMode := st.draftMode
      activeKeywords := st.draftKeywords
      activeThreshold := st.draftThreshold
      status := "Connecting"
      error := ""
      isEditing := false }

/-! ## PollEngine: one tick of `fetchSummary`

A tick is issued by one instantiation of the polling effect; the effect's
cleanup (run when the active configuration changes or is cleared) sets its
`active` flag to false.  The completion of the request is modelled by
`fetchTick active outcome st`, returning the new state together with whether
`setTimeout(fetchSummary, 8000)` is reached. -/

/-- What the awaited request resolved to.  `netError` stands for a rejected
fetch, a failed body read or a JSON parse error (any throw before the
`response.ok` check), carrying the thrown message; `emptyBody` for an empty
response body; `response` for a parsed JSON body plus `response.ok`. -/
inductive FetchOutcome where
  | netError (msg : String)
  | emptyBody (ok : Bool)
  | response (ok : Bool) (payload : Payload)
deriving Repr, DecidableEq

/-- Truthiness of `payload.error`. -/
def errTruthy (p : Payload) : Bool :=
  match p.error with
  | some s => s != ""
  | none => false

/-- The `catch` block of `fetchSummary` followed by the unconditional
rescheduling line: when the tick is stale (`active = false`) the early
`return` skips both. -/
def catchBranch (active : Bool) (msg : String) (st : AppState) : AppState × Bool :=
  if active then
    ({ st with status := "Offline", error := if msg = "" then "Unable to fetch summary." else msg },
      true)
  else (st, false)

/-- The block of state writes on the success path of `fetchSummary`. -/
def applySuccess (p : Payload) (st : AppState) : AppState :=
  { st with
    summary := jsOrEmpty p.summary
    events := p.events.getD []
    history := p.summaryHistory.getD []
    videoTitle := jsOrDefault p.videoTitle "Unknown"
    videoChannel := jsOrDefault p.videoChannel "Unknown"
    rates := p.rates.getD []
    ratePoints := p.ratePoints.getD []
    streamStartTs := jsOrNullInt p.streamStartTs
    status := if jsOrEmpty p.summary ≠ "" then "Live" else "Waiting"
    updatedAt := jsOrNullInt p.updatedAt }

/-- Completion of one `fetchSummary` tick. -/
def fetchTick (active : Bool) (o : FetchOutcome) (st : AppState) : AppState × Bool :=
  match o with
  | .netError m => catchBranch active m st
  | .emptyBody _ => catchBranch active "Empty response from server." st
  | .response ok p =>
    if !ok || errTruthy p then
      catchBranch active (jsOrDefault p.error "Unable to fetch summary.") st
    else if !active then (st, false)
    else (applySuccess p st, true)

/-- A response delivered to the effect instantiation of generation
`issuedGen` while the current instantiation is `currentGen`: the closure's
`active` flag is true exactly when no cleanup has run since the request was
issued, i.e. when the generations coincide. -/
def deliverResponse (issuedGen currentGen : Nat) (o : FetchOutcome) (st : AppState) :
    AppState × Bool :=
  fetchTick (issuedGen == currentGen) o st

/-! ## HistoryAligner: `parseRuntimeSeconds` and `getClosestHistorySummary` -/

/-- JavaScript `Number.parseInt(s, 10)`: skip leading whitespace, read an
optional sign, then the longest digit run; `NaN` (here `none`) when no digit
follows. -/
def jsParseInt10 (cs : List Char) : Option Int :=
  let t := cs.dropWhile Char.isWhitespace
  let signed : Int × List Char :=
    match t with
    | '-' :: r => (-1, r)
    | '+' :: r => (1, r)
    | r => (1, r)
  let digs := signed.2.takeWhile Char.isDigit
  if digs.isEmpty then none
  else some (signed.1 * (digs.foldl (fun a c => a * 10 + (c.toNat - '0'.toNat)) 0 : Nat))

/-- `parseRuntimeSeconds` from App.jsx: split the runtime string on `:`,
parse every part in base 10, fail on any `NaN`, then combine two parts as
`m*60+s` and three parts as `h*3600+m*60+s`. -/
def parseRuntimeSeconds (v : Option String) : Option Int :=
  match v with
  | none => none
  | some s =>
    if s = "" then none
    else
      match (splitOnChar ':' s.data).mapM (fun part => jsParseInt10 part) with
      | none => none
      | some [a, b] => some (a * 60 + b)
      | some [a, b, c] => some (a * 3600 + b * 60 + c)
      | some _ => none

/-- The absolute distance of a history entry's parsed runtime from `elapsed`,
when the entry parses at all. -/
def parsedDelta (elapsed : Int) (e : HistoryEntry) : Option Int :=
  (parseRuntimeSeconds e.timestamp).map (fun r => |r - elapsed|)

/-- Whether a candidate distance beats the best distance so far
(`none` is the initial `Number.POSITIVE_INFINITY`). -/
def beatsDelta (d : Int) (best : Option Int) : Bool :=
  match best with
  | none => true
  | some bd => d < bd

/-- The `for (const entry of historyItems)` loop of `getClosestHistorySummary`:
strictly smaller distances replace the best entry, so the first minimal entry
in arrival order wins. -/
def bestLoop (elapsed : Int) : List HistoryEntry → Option Int → String × String → String × String
  | [], _, best => best
  | e :: rest, bestDelta, best =>
    match parseRuntimeSeconds e.timestamp with
    | none => bestLoop elapsed rest bestDelta best
    | some r =>
      let d := |r - elapsed|
      if beatsDelta d bestDelta then
        bestLoop elapsed rest (some d) (jsOrEmpty e.summary, jsOrEmpty e.timestamp)
      else bestLoop elapsed rest bestDelta best

/-- `const startTs = streamStartRef.current || points[0]?.timestamp`. -/
def anchorOf (points : List RatePoint) (streamStart : Option Int) : Option Int :=
  if jsTruthyInt streamStart then streamStart else points.head?.map (fun p => p.timestamp)

/-- `Math.max(0, Math.floor(points[index].timestamp - startTs))`; timestamps
are integral epoch seconds, so `Math.floor` is the identity and is dropped. -/
def elapsedFor (pt : RatePoint) (startTs : Option Int) : Int :=
  max 0 (pt.timestamp - startTs.getD 0)

/-- `getClosestHistorySummary` from App.jsx. -/
def getClosestHistorySummary (history : List HistoryEntry) (points : List RatePoint)
    (streamStart : Option Int) (index : Nat) : String × String :=
  match points[index]? with
  | none => ("", "")
  | some pt =>
    let startTs := anchorOf points streamStart
    if !jsTruthyInt startTs then ("", "")
    else bestLoop (elapsedFor pt startTs) history none ("", "")

/-! ## RuntimeClock: `formatElapsed`

The wall-clock fallback `new Date(ms).toLocaleTimeString()` calls into the
host environment; it is abstracted as a formatter `fmt : Int → String` of the
millisecond value, which every theorem quantifies over. -/

/-- `n.toString().padStart(2, "0")` for the non-negative components. -/
def pad2 (n : Nat) : String :=
  if n < 10 then "0" ++ toString n else toString n

/-- `formatElapsed` from App.jsx. -/
def formatElapsed (fmt : Int → String) (timestamp : Int) (startTs : Option Int) : String :=
  if timestamp = 0 then ""
  else if !jsTruthyInt startTs then fmt (timestamp * 1000)
  else
    let delta := (max 0 (timestamp - startTs.getD 0)).toNat
    let hours := delta / 3600
    let minutes := delta % 3600 / 60
    let seconds := delta % 60
    if hours ≠ 0 then pad2 hours ++ ":" ++ pad2 minutes ++ ":" ++ pad2 seconds
    else pad2 minutes ++ ":" ++ pad2 seconds

/-! ## SeriesReconciler: the `rateLabels` reconciliation effect -/

/-- The full-rebuild labels on the restart path: one label per sample,
anchored to `now` (milliseconds) counting backward one second per label. -/
def rebuiltLabels (fmt : Int → String) (now : Int) (n : Nat) : List String :=
  (List.range n).map (fun (i : Nat) => fmt (now - ((n : Int) - 1 - (i : Int)) * 1000))

/-- The `rateLabels` reconciliation effect of App.jsx: `prev` is the stored
label list, the remaining arguments the freshly installed payload state. -/
def reconcileRateLabels (fmt : Int → String) (now : Int) (prev : List String)
    (rates : List Int) (ratePoints : List RatePoint) (streamStart : Option Int) :
    List String :=
  if !ratePoints.isEmpty then
    ratePoints.map (fun p => formatElapsed fmt p.timestamp streamStart)
  else if rates.length < prev.length then rebuiltLabels fmt now rates.length
  else if rates.length = prev.length then prev
  else prev ++ rebuiltLabels fmt now (rates.length - prev.length)

/-- One reconciliation input: the wall-clock instant of the effect run plus
the payload-installed series state. -/
structure ReconInput where
  now : Int
  rates : List Int
  ratePoints : List RatePoint
  streamStart : Option Int
deriving Repr, DecidableEq

def reconcileStep (fmt : Int → String) (labels : List String) (inp : ReconInput) :
    List String :=
  reconcileRateLabels fmt inp.now labels inp.rates inp.ratePoints inp.streamStart

/-- The length of the current RateSeries: `ratePoints` when non-empty,
otherwise the legacy `rates` array. -/
def seriesLength (rates : List Int) (ratePoints : List RatePoint) : Nat :=
  if ratePoints.isEmpty then rates.length else ratePoints.length

/-! ## Chart display truncation -/

/-- JavaScript `l.slice(-n)` for positive `n`: the most recent `n` elements. -/
def jsSliceLast (n : Nat) (l : List α) : List α := l.drop (l.length - n)

/-- The chart-display effect of App.jsx: data and labels handed to the chart. -/
def chartDisplay (rates : List Int) (ratePoints : List RatePoint)
    (rateLabels : List String) : List Int × List String :=
  let seriesRates := if ratePoints.isEmpty then rates else ratePoints.map (fun p => p.rate)
  (jsSliceLast 20000 seriesRates, jsSliceLast 20000 rateLabels)

/-- `updateRateChart` from static/app.js (the legacy frontend): returns the
labels and data installed on the chart, or `none` when the update is skipped.
The `!rateChart` guard is dropped (the chart is initialised on page load). -/
def updateRateChart (rates : List Int) : Option (List Nat × List Int) :=
  if rates.isEmpty then none
  else
    let displayRates := jsSliceLast 100 rates
    let labels :=
      (List.range displayRates.length).map
        (fun index => rates.length - displayRates.length + index + 1)
    some (labels, displayRates)

/-! ## ExportSerializer -/

/-- `.replace(/"/g, '""')`. -/
def escQuotes : List Char → List Char
  | [] => []
  | c :: r => if c = '"' then '"' :: '"' :: escQuotes r else c :: escQuotes r

/-- One row of the keyword-timestamp export, exactly as built by the source:
the timestamp is interpolated as is, only the keyword is quote-escaped. -/
def eventRow (e : KeywordEvent) : String :=
  "\"" ++ jsOrEmpty e.timestamp ++ "\",\"" ++ String.mk (escQuotes (jsOrEmpty e.keyword).data) ++ "\""

/-- `handleExportTimestamps` from App.jsx: `none` when the early return fires
(no file-generation side effect), otherwise the generated CSV text. -/
def handleExportTimestamps (events : List KeywordEvent) : Option String :=
  if events.isEmpty then none
  else some ("timestamp,keyword\n" ++ String.intercalate "\n" (events.map eventRow))

/-- The row list of `handleExportRates` (rows from `ratePoints` when any
exist, otherwise index/rate fallback rows from the full `rates` array). -/
def exportRateRows (fmt : Int → String) (ratePoints : List RatePoint) (rates : List Int)
    (streamStart : Option Int) : List String :=
  let rows :=
    ratePoints.map (fun p =>
      "\"" ++ formatElapsed fmt p.timestamp streamStart ++ "\",\"" ++ toString p.rate ++ "\"")
  if rows.isEmpty && !rates.isEmpty then
    (List.range rates.length).map (fun idx =>
      "\"" ++ toString idx ++ "\",\"" ++ toString rates[idx]! ++ "\"")
  else rows

/-- `handleExportRates` from App.jsx. -/
def handleExportRates (fmt : Int → String) (ratePoints : List RatePoint) (rates : List Int)
    (streamStart : Option Int) : Option String :=
  if ratePoints.isEmpty && rates.isEmpty then none
  else
    some ("elapsed,rate\n" ++ String.intercalate "\n" (exportRateRows fmt ratePoints rates streamStart))

/-! ## Failure classification of a poll response (C3) -/

/-- The transport layer reported non-success: a throw before the status check
(rejected fetch, unreadable or empty body, unparseable JSON) or `!response.ok`. -/
def transportNonSuccess (o : FetchOutcome) : Prop :=
  match o with
  | .netError _ => True
  | .emptyBody _ => True
  | .response ok _ => ok = false

/-- The payload carries an error field (a present, non-empty `error`; an
empty-string `error` is falsy in the source and counts as absent). -/
def carriesError (o : FetchOutcome) : Prop :=
  match o with
  | .response _ p => errTruthy p = true
  | _ => False

/-- Whether the tick takes the failure (`catch`) path. -/
def failedResponse (o : FetchOutcome) : Bool :=
  match o with
  | .netError _ => true
  | .emptyBody _ => true
  | .response ok p => !ok || errTruthy p

/-- The human-readable message stored by the failure path. -/
def failureMessage (o : FetchOutcome) : String :=
  match o with
  | .netError m => if m = "" then "Unable to fetch summary." else m
  | .emptyBody _ => "Empty response from server."
  | .response _ p => jsOrDefault p.error "Unable to fetch summary."

/-! ## Claim theorems: ConfigStager and PollEngine -/

theorem identityKey_ne_empty (a b : String) : identityKey a b ≠ "" := by
  intro h
  have hd := congrArg String.data h
  simp only [identityKey, String.data_append] at hd
  simp at hd

/-- Claim C1: committing a draft that parses successfully preserves the
derived series (RateSeries, history, events, labels, stream start, last
updated) when the identity key `source:ref` equals the active configuration's
key, resets all of them to empty/placeholder values when the keys differ
(which includes the case of no active configuration), and in both cases sets
status to "Connecting" and clears the error. -/
theorem commit_preserves_or_resets_series (st : AppState) (hid : submittedId st ≠ "") :
    ((handleSubmit st).status = "Connecting" ∧ (handleSubmit st).error = "") ∧
    (identityKey st.draftSource (submittedId st) = currentIdentityKey st →
      (handleSubmit st).rates = st.rates ∧ (handleSubmit st).ratePoints = st.ratePoints ∧
      (handleSubmit st).rateLabels = st.rateLabels ∧ (handleSubmit st).history = st.history ∧
      (handleSubmit st).events = st.events ∧
      (handleSubmit st).streamStartTs = st.streamStartTs ∧
      (handleSubmit st).updatedAt = st.updatedAt) ∧
    (identityKey st.draftSource (submittedId st) ≠ currentIdentityKey st →
      (handleSubmit st).rates = [] ∧ (handleSubmit st).ratePoints = [] ∧
      (handleSubmit st).rateLabels = [] ∧ (handleSubmit st).history = [] ∧
      (handleSubmit st).events = [] ∧ (handleSubmit st).streamStartTs = none ∧
      (handleSubmit st).updatedAt = none) ∧
    (st.activeStreamId = "" →
      identityKey st.draftSource (submittedId st) ≠ currentIdentityKey st) := by
  refine ⟨?_, ?_, ?_, ?_⟩
  · simp only [handleSubmit, if_neg hid]
    by_cases hkey : identityKey st.draftSource (submittedId st) = currentIdentityKey st <;>
      simp [hkey, clearDerivedSeries]
  · intro hkey
    simp only [handleSubmit, if_neg hid]
    simp [hkey, clearDerivedSeries]
  · intro hkey
    simp only [handleSubmit, if_neg hid]
    simp [hkey, clearDerivedSeries]
  · intro h0
    simp [currentIdentityKey, h0, identityKey_ne_empty]

def stC1 : AppState := { draftInput := "dQw4w9WgXcQ", rates := [4, 5], history := [⟨some "00:10", some "s"⟩] }

theorem commit_preserves_or_resets_series_witness :
    submittedId stC1 ≠ "" ∧
    ((handleSubmit stC1).status = "Connecting" ∧ (handleSubmit stC1).error = "") ∧
    ((handleSubmit stC1).rates = [] ∧ (handleSubmit stC1).history = []) := by
  have h := commit_preserves_or_resets_series stC1 (by decide)
  refine ⟨by decide, h.1, ?_, ?_⟩
  · exact (h.2.2.1 (h.2.2.2 (by decide))).1
  · exact (h.2.2.1 (h.2.2.2 (by decide))).2.2.2.1

/-- Claim C2: a poll response that arrives after the active configuration has
been replaced or cleared (so the effect instantiation that issued it is no
longer the current one) mutates no shared state and schedules no next tick. -/
theorem stale_response_is_ignored (issuedGen currentGen : Nat) (o : FetchOutcome)
    (st : AppState) (h : issuedGen ≠ currentGen) :
    deliverResponse issuedGen currentGen o st = (st, false) := by
  have hb : (issuedGen == currentGen) = false := by
    simpa using h
  unfold deliverResponse
  rw [hb]
  cases o with
  | netError m => simp [fetchTick, catchBranch]
  | emptyBody ok => simp [fetchTick, catchBranch]
  | response ok p =>
    cases hcond : (!ok || errTruthy p) <;> simp [fetchTick, catchBranch, hcond]

theorem stale_response_is_ignored_witness :
    deliverResponse 0 1 (FetchOutcome.netError "socket hung up") {} = ({}, false) :=
  stale_response_is_ignored 0 1 (FetchOutcome.netError "socket hung up") {} (by decide)

/-- Claim C3: a poll tick is treated as failed exactly when the transport
reports non-success or the payload carries a (truthy) error field; on failure
the status becomes "Offline", the human-readable message is stored in the
error, and every other piece of state — series, labels, history, events,
stream start, display fields, last updated — keeps its previous value, while
the next tick is still scheduled. -/
theorem failed_tick_sets_offline_and_preserves_series (o : FetchOutcome) (st : AppState) :
    (failedResponse o = true ↔ transportNonSuccess o ∨ carriesError o) ∧
    (failedResponse o = true →
      fetchTick true o st =
        ({ st with status := "Offline", error := failureMessage o }, true)) := by
  constructor
  · cases o with
    | netError m => simp [failedResponse, transportNonSuccess, carriesError]
    | emptyBody ok => simp [failedResponse, transportNonSuccess, carriesError]
    | response ok p =>
      cases ok <;> simp [failedResponse, transportNonSuccess, carriesError]
  · intro hfail
    cases o with
    | netError m =>
      simp only [fetchTick, catchBranch, if_pos rfl, failureMessage]
      split <;> simp_all
    | emptyBody ok =>
      simp [fetchTick, catchBranch, failureMessage]
    | response ok p =>
      have hcond : (!ok || errTruthy p) = true := by
        simpa [failedResponse] using hfail
      simp only [fetchTick, hcond, if_pos, catchBranch, if_true, failureMessage]
      have hmsg : (jsOrDefault p.error "Unable to fetch summary.") ≠ "" := by
        unfold jsOrDefault
        cases herr : p.error with
        | none => decide
        | some s =>
          by_cases hs : s = "" <;> simp [hs]
      simp [hmsg]

theorem failed_tick_sets_offline_and_preserves_series_witness :
    failedResponse (FetchOutcome.response false { summary := some "hi" }) = true ∧
    fetchTick true (FetchOutcome.response false { summary := some "hi" }) stC1 =
      ({ stC1 with status := "Offline", error := "Unable to fetch summary." }, true) := by
  have h := failed_tick_sets_offline_and_preserves_series
    (FetchOutcome.response false { summary := some "hi" }) stC1
  refine ⟨by decide, ?_⟩
  rw [h.2 (by decide)]
  decide

/-! ## Claim theorems: SeriesReconciler and chart truncation -/

theorem reconcile_length (fmt : Int → String) (now : Int) (prev : List String)
    (rates : List Int) (ratePoints : List RatePoint) (ss : Option Int) :
    (reconcileRateLabels fmt now prev rates ratePoints ss).length =
      seriesLength rates ratePoints := by
  cases hrp : ratePoints.isEmpty with
  | false => simp [reconcileRateLabels, seriesLength, hrp]
  | true =>
    simp only [reconcileRateLabels, seriesLength, hrp, Bool.not_true, Bool.false_eq_true,
      if_false, if_true]
    rcases Nat.lt_trichotomy rates.length prev.length with h | h | h
    · rw [if_pos h]
      simp only [rebuiltLabels, List.length_map, List.length_range]
    · rw [if_neg (by omega), if_pos h]
      omega
    · rw [if_neg (by omega), if_neg (by omega)]
      simp only [List.length_append, rebuiltLabels, List.length_map, List.length_range]
      omega

/-- Claim C5: after every reconciliation the number of display labels equals
the number of samples in the current rate series (the `ratePoints` array when
non-empty, otherwise the legacy `rates` array), and this holds after every
sequence of reconciliations, whatever the stored labels were. -/
theorem labels_length_matches_series (fmt : Int → String) :
    (∀ (labels : List String) (inp : ReconInput),
      (reconcileStep fmt labels inp).length = seriesLength inp.rates inp.ratePoints) ∧
    (∀ (labels : List String) (pre : List ReconInput) (inp : ReconInput),
      ((pre ++ [inp]).foldl (reconcileStep fmt) labels).length =
        seriesLength inp.rates inp.ratePoints) := by
  refine ⟨fun labels inp => reconcile_length fmt inp.now labels inp.rates inp.ratePoints
    inp.streamStart, fun labels pre inp => ?_⟩
  rw [List.foldl_append]
  exact reconcile_length fmt inp.now _ inp.rates inp.ratePoints inp.streamStart

/-- Claim C6: on the legacy `rates` path, a shorter payload array rebuilds
the whole label list anchored to "now" counting backward one second per
label; an equal-length payload returns the previous labels unchanged; a
longer payload appends exactly the delta count of new labels and keeps every
previously assigned label identical.  In a payload-length sequence
[5, 5, 2, ...] the third payload therefore fully regenerates the labels. -/
theorem legacy_rates_label_reconciliation (fmt : Int → String) :
    (∀ (now : Int) (prev : List String) (rates : List Int) (ss : Option Int),
      (rates.length < prev.length →
        reconcileRateLabels fmt now prev rates [] ss = rebuiltLabels fmt now rates.length) ∧
      (rates.length = prev.length →
        reconcileRateLabels fmt now prev rates [] ss = prev) ∧
      (prev.length < rates.length →
        (reconcileRateLabels fmt now prev rates [] ss).take prev.length = prev ∧
        (reconcileRateLabels fmt now prev rates [] ss).length = rates.length ∧
        (reconcileRateLabels fmt now prev rates [] ss).drop prev.length =
          rebuiltLabels fmt now (rates.length - prev.length))) ∧
    (∀ (n1 n2 n3 : Int) (r5a r5b r2 : List Int),
      r5a.length = 5 → r5b.length = 5 → r2.length = 2 →
      [ReconInput.mk n1 r5a [] none, ReconInput.mk n2 r5b [] none,
        ReconInput.mk n3 r2 [] none].foldl (reconcileStep fmt) [] =
        rebuiltLabels fmt n3 2) := by
  constructor
  · intro now prev rates ss
    refine ⟨fun h => ?_, fun h => ?_, fun h => ?_⟩
    · simp [reconcileRateLabels, h]
    · simp [reconcileRateLabels, h, Nat.lt_irrefl]
    · have h2 : reconcileRateLabels fmt now prev rates [] ss =
          prev ++ rebuiltLabels fmt now (rates.length - prev.length) := by
        simp only [reconcileRateLabels, List.isEmpty_nil, Bool.not_true, Bool.false_eq_true,
          if_false]
        rw [if_neg (by omega), if_neg (by omega)]
      rw [h2]
      refine ⟨List.take_left prev _, ?_, List.drop_left prev _⟩
      simp only [List.length_append, rebuiltLabels, List.length_map, List.length_range]
      omega
  · intro n1 n2 n3 r5a r5b r2 h1 h2 h3
    have hl : (rebuiltLabels fmt n1 5).length = 5 := by
      simp only [rebuiltLabels, List.length_map, List.length_range]
    have s1 : reconcileStep fmt [] (ReconInput.mk n1 r5a [] none) = rebuiltLabels fmt n1 5 := by
      simp [reconcileStep, reconcileRateLabels, h1]
    have s2 : reconcileStep fmt (rebuiltLabels fmt n1 5) (ReconInput.mk n2 r5b [] none) =
        rebuiltLabels fmt n1 5 := by
      simp [reconcileStep, reconcileRateLabels, h2, hl]
    have s3 : reconcileStep fmt (rebuiltLabels fmt n1 5) (ReconInput.mk n3 r2 [] none) =
        rebuiltLabels fmt n3 2 := by
      simp [reconcileStep, reconcileRateLabels, h3, hl]
    simp [List.foldl, s1, s2, s3]

theorem legacy_rates_label_reconciliation_witness :
    reconcileRateLabels (fun ms => toString ms) 10000 ["a", "b", "c", "d", "e"] [7, 9] [] none =
      ["9000", "10000"] := by
  have h := (legacy_rates_label_reconciliation (fun ms => toString ms)).1 10000
    ["a", "b", "c", "d", "e"] [7, 9] none
  rw [h.1 (by decide)]
  decide

theorem jsSliceLast_length (n : Nat) (l : List α) : (jsSliceLast n l).length = min l.length n := by
  simp [jsSliceLast]
  omega

set_option maxRecDepth 4000 in
/-- Claim C7 counterexample: with the legacy `rates` path active (no
`ratePoints`) and 150 samples, the App.jsx chart-display effect hands all
150 samples to the chart — more than the claimed 100-sample retention for
the rates-array path (App.jsx truncates both paths at 20000). -/
theorem display_truncation_counterexample :
    (chartDisplay (List.replicate 150 0) [] []).1.length = 150 ∧
    ¬(chartDisplay (List.replicate 150 0) [] []).1.length ≤ 100 := by decide

/-- Claim C7 amended: the App.jsx chart retains the most recent 20000 samples
regardless of which series shape is in use; the 100-sample window belongs to
`updateRateChart` of the legacy static frontend (static/app.js), which only
consumes the `rates` array; truncation happens at display time only, so the
CSV export rows always cover the full retained series. -/
theorem display_truncation_amended (fmt : Int → String) (rates : List Int)
    (ratePoints : List RatePoint) (labels : List String) (ss : Option Int) :
    ((chartDisplay rates ratePoints labels).1.length =
        min (seriesLength rates ratePoints) 20000 ∧
      (chartDisplay rates ratePoints labels).2.length = min labels.length 20000 ∧
      ∃ preD, preD ++ (chartDisplay rates ratePoints labels).1 =
        (if ratePoints.isEmpty then rates else ratePoints.map (fun p => p.rate))) ∧
    (rates ≠ [] →
      ∃ labs data, updateRateChart rates = some (labs, data) ∧
        data.length = min rates.length 100 ∧ ∃ preS, preS ++ data = rates) ∧
    (exportRateRows fmt ratePoints rates ss).length = seriesLength rates ratePoints := by
  refine ⟨⟨?_, ?_, ?_⟩, ?_, ?_⟩
  · cases hrp : ratePoints.isEmpty <;>
      simp [chartDisplay, seriesLength, hrp, jsSliceLast_length]
  · simp [chartDisplay, jsSliceLast_length]
  · refine ⟨(if ratePoints.isEmpty then rates else ratePoints.map (fun p => p.rate)).take
      ((if ratePoints.isEmpty then rates else ratePoints.map (fun p => p.rate)).length - 20000),
      ?_⟩
    cases hrp : ratePoints.isEmpty <;>
      simp [chartDisplay, hrp, jsSliceLast, List.take_append_drop]
  · intro hne
    have hni : rates.isEmpty = false := by simpa [List.isEmpty_iff] using hne
    refine ⟨(List.range (jsSliceLast 100 rates).length).map
        (fun index => rates.length - (jsSliceLast 100 rates).length + index + 1),
      jsSliceLast 100 rates, by simp [updateRateChart, hni], jsSliceLast_length 100 rates,
      rates.take (rates.length - 100), List.take_append_drop _ _⟩
  · cases hrp : ratePoints.isEmpty with
    | true =>
      have : ratePoints = [] := by simpa [List.isEmpty_iff] using hrp
      subst this
      cases hnr : rates.isEmpty with
      | true =>
        have : rates = [] := by simpa [List.isEmpty_iff] using hnr
        subst this
        simp [exportRateRows, seriesLength]
      | false => simp [exportRateRows, seriesLength, hnr]
    | false =>
      have hne : ratePoints ≠ [] := by simpa [List.isEmpty_iff] using hrp
      simp [exportRateRows, seriesLength, hrp, hne]

theorem display_truncation_amended_witness :
    ([3, 1, 4] ≠ ([] : List Int)) ∧
    (∃ labs data, updateRateChart [3, 1, 4] = some (labs, data) ∧
      data.length = min [3, 1, 4].length 100 ∧ ∃ preS, preS ++ data = [3, 1, 4]) :=
  ⟨by decide, (display_truncation_amended (fun _ => "") [3, 1, 4] [] [] none).2.1 (by decide)⟩

/-! ## Claim theorems: stream-start anchor (C8) -/

def pC8 : Payload := { streamStart := some 1000 }

/-- Claim C8 counterexample: a successful response whose `streamStart` field
carries 1000 (the field named by the response contract) installs no anchor at
all — the code reads the differently named `streamStartTs` field, which is
absent here. -/
theorem stream_start_field_counterexample :
    pC8.streamStart = some 1000 ∧ errTruthy pC8 = false ∧
    ((fetchTick true (FetchOutcome.response true pC8) {}).1).streamStartTs = none := by decide

/-- Claim C8 amended: for every successful poll response the anchor installed
as StreamStart is the payload's `streamStartTs` field (null when the field is
absent or falsy); the `streamStart` field named by the written response
contract is ignored entirely by the success handler. -/
theorem stream_start_install_amended (p : Payload) (st : AppState) :
    (applySuccess p st).streamStartTs = jsOrNullInt p.streamStartTs ∧
    (∀ v, applySuccess { p with streamStart := v } st = applySuccess p st) :=
  ⟨rfl, fun _ => rfl⟩

/-! ## Claim theorems: keyword-timestamp export (C9) -/

/-- A CSV field as the claim describes every field: double-quoted with
embedded double quotes escaped by doubling. -/
def quoteField (s : String) : String := "\"" ++ String.mk (escQuotes s.data) ++ "\""

/-- A keyword-event row as the claim describes it: both fields quoted and
escaped. -/
def specEventRow (e : KeywordEvent) : String :=
  quoteField (jsOrEmpty e.timestamp) ++ "," ++ quoteField (jsOrEmpty e.keyword)

theorem escQuotes_of_no_quote : ∀ {l : List Char}, (∀ c ∈ l, c ≠ '"') → escQuotes l = l := by
  intro l
  induction l with
  | nil => intro _; rfl
  | cons c r ih =>
    intro h
    have hc : c ≠ '"' := h c (by simp)
    simp only [escQuotes, if_neg hc]
    rw [ih (fun x hx => h x (by simp [hx]))]

theorem string_ext_data {a b : String} (h : a.data = b.data) : a = b := by
  cases a
  cases b
  exact congrArg String.mk h

theorem data_append_eq (a b : String) : (a ++ b).data = a.data ++ b.data :=
  String.data_append a b

/-- Claim C9: exporting keyword timestamps is a no-op on an empty event list;
on a non-empty list (whose timestamps, being runtime strings, contain no
double quote) it produces the header line `timestamp,keyword` followed by one
row per event with double-quoted fields and embedded double quotes escaped by
doubling; in particular one event `00:12`/`clutch` yields exactly the two
lines `timestamp,keyword` and `"00:12","clutch"`. -/
theorem keyword_export_format :
    (handleExportTimestamps [] = none) ∧
    (∀ events : List KeywordEvent, events ≠ [] →
      (∀ e ∈ events, ∀ c ∈ (jsOrEmpty e.timestamp).data, c ≠ '"') →
      handleExportTimestamps events =
        some ("timestamp,keyword\n" ++ String.intercalate "\n" (events.map specEventRow))) ∧
    (handleExportTimestamps [⟨some "00:12", some "clutch"⟩] =
      some "timestamp,keyword\n\"00:12\",\"clutch\"") := by
  refine ⟨rfl, ?_, by decide⟩
  intro events hne hq
  have hrows : events.map eventRow = events.map specEventRow := by
    apply List.map_congr_left
    intro e he
    have hts : escQuotes (jsOrEmpty e.timestamp).data = (jsOrEmpty e.timestamp).data :=
      escQuotes_of_no_quote (hq e he)
    apply string_ext_data
    simp [eventRow, specEventRow, quoteField, data_append_eq, hts]
  have hni : events.isEmpty = false := by simpa [List.isEmpty_iff] using hne
  simp [handleExportTimestamps, hni, hrows]

theorem keyword_export_format_witness :
    ([(⟨some "00:12", some "clutch"⟩ : KeywordEvent)] ≠ []) ∧
    handleExportTimestamps [⟨some "00:12", some "clutch"⟩] =
      some ("timestamp,keyword\n" ++
        String.intercalate "\n" ([(⟨some "00:12", some "clutch"⟩ : KeywordEvent)].map specEventRow)) := by
  refine ⟨by decide, ?_⟩
  exact keyword_export_format.2.1 [⟨some "00:12", some "clutch"⟩] (by decide) (by decide)

/-! ## Claim theorems: HistoryAligner (C4)

`firstArgmin` is a specification-side recursion computing the first entry of
minimal distance (ties resolve to the earlier entry); the source's
accumulator loop is proved equal to it. -/

def firstArgmin (elapsed : Int) : List HistoryEntry → Option (Int × HistoryEntry)
  | [] => none
  | e :: rest =>
    match parseRuntimeSeconds e.timestamp with
    | none => firstArgmin elapsed rest
    | some r =>
      match firstArgmin elapsed rest with
      | none => some (|r - elapsed|, e)
      | some (d2, e2) =>
        if |r - elapsed| ≤ d2 then some (|r - elapsed|, e) else some (d2, e2)

theorem bestLoop_eq_firstArgmin (elapsed : Int) :
    ∀ (hist : List HistoryEntry) (bd : Option Int) (best : String × String),
      bestLoop elapsed hist bd best =
        match firstArgmin elapsed hist with
        | none => best
        | some (d, e) =>
          if beatsDelta d bd then (jsOrEmpty e.summary, jsOrEmpty e.timestamp) else best := by
  intro hist
  induction hist with
  | nil => intro bd best; rfl
  | cons e rest ih =>
    intro bd best
    cases hpe : parseRuntimeSeconds e.timestamp with
    | none =>
      simp only [bestLoop, firstArgmin, hpe]
      exact ih bd best
    | some r =>
      simp only [bestLoop, firstArgmin, hpe]
      cases harg : firstArgmin elapsed rest with
      | none =>
        by_cases hb : beatsDelta |r - elapsed| bd = true
        · rw [if_pos hb, ih]
          simp [harg, hb]
        · rw [if_neg hb, ih]
          simp [harg, hb]
      | some pair =>
        obtain ⟨d2, e2⟩ := pair
        by_cases hb : beatsDelta |r - elapsed| bd = true
        · rw [if_pos hb, ih, harg]
          dsimp only
          by_cases hdd : |r - elapsed| ≤ d2
          · rw [if_pos hdd]
            have h1 : beatsDelta d2 (some |r - elapsed|) = false := by
              simp only [beatsDelta, decide_eq_false_iff_not]
              omega
            simp [h1, hb]
          · rw [if_neg hdd]
            have h1 : beatsDelta d2 (some |r - elapsed|) = true := by
              simp only [beatsDelta, decide_eq_true_eq]
              omega
            have h2 : beatsDelta d2 bd = true := by
              cases bd with
              | none => rfl
              | some b =>
                simp only [beatsDelta, decide_eq_true_eq] at hb ⊢
                omega
            simp [h1, h2]
        · rw [if_neg hb, ih, harg]
          dsimp only
          cases bd with
          | none => exact absurd rfl hb
          | some b =>
            have hbb : ¬|r - elapsed| < b := by
              simpa [beatsDelta] using hb
            by_cases hdd : |r - elapsed| ≤ d2
            · rw [if_pos hdd]
              have h1 : beatsDelta |r - elapsed| (some b) = false := by
                simp only [beatsDelta, decide_eq_false_iff_not]
                omega
              have h2 : beatsDelta d2 (some b) = false := by
                simp only [beatsDelta, decide_eq_false_iff_not]
                omega
              simp [h1, h2]
            · rw [if_neg hdd]

theorem firstArgmin_eq_none_iff (elapsed : Int) :
    ∀ hist : List HistoryEntry,
      firstArgmin elapsed hist = none ↔
        ∀ e ∈ hist, parseRuntimeSeconds e.timestamp = none := by
  intro hist
  induction hist with
  | nil => simp [firstArgmin]
  | cons e rest ih =>
    cases hpe : parseRuntimeSeconds e.timestamp with
    | none => simp [firstArgmin, hpe, ih]
    | some r =>
      cases harg : firstArgmin elapsed rest with
      | none => simp [firstArgmin, hpe, harg]
      | some pair =>
        obtain ⟨d2, e2⟩ := pair
        by_cases hdd : |r - elapsed| ≤ d2 <;> simp [firstArgmin, hpe, harg, hdd]

theorem firstArgmin_spec (elapsed : Int) :
    ∀ (hist : List HistoryEntry) (d : Int) (e : HistoryEntry),
      firstArgmin elapsed hist = some (d, e) →
      ∃ k, ∃ hk : k < hist.length,
        hist[k] = e ∧ parsedDelta elapsed e = some d ∧
        (∀ j (hj : j < hist.length) (dj : Int),
          parsedDelta elapsed hist[j] = some dj → d ≤ dj) ∧
        (∀ j (hj : j < hist.length), j < k →
          ∀ dj : Int, parsedDelta elapsed hist[j] = some dj → d < dj) := by
  intro hist
  induction hist with
  | nil =>
    intro d e h
    simp [firstArgmin] at h
  | cons a rest ih =>
    intro d e h
    have hlen : (a :: rest).length = rest.length + 1 := by simp
    cases hpe : parseRuntimeSeconds a.timestamp with
    | none =>
      rw [firstArgmin, hpe] at h
      obtain ⟨k, hk, hke, hpd, hmin, hfirst⟩ := ih d e h
      refine ⟨k + 1, Nat.succ_lt_succ hk, by simpa using hke, hpd, ?_, ?_⟩
      · intro j hj dj hdj
        cases j with
        | zero => simp [parsedDelta, hpe] at hdj
        | succ j' =>
          exact hmin j' (by omega) dj (by simpa using hdj)
      · intro j hj hjk dj hdj
        cases j with
        | zero => simp [parsedDelta, hpe] at hdj
        | succ j' =>
          exact hfirst j' (by omega) (by omega) dj (by simpa using hdj)
    | some r =>
      rw [firstArgmin, hpe] at h
      cases harg : firstArgmin elapsed rest with
      | none =>
        rw [harg] at h
        have hall := (firstArgmin_eq_none_iff elapsed rest).1 harg
        have hde : |r - elapsed| = d ∧ a = e := by simpa using h
        obtain ⟨hd, he⟩ := hde
        refine ⟨0, by simp, by simpa using he, ?_, ?_, ?_⟩
        · rw [← he]
          simp [parsedDelta, hpe, hd]
        · intro j hj dj hdj
          cases j with
          | zero =>
            simp [parsedDelta, hpe] at hdj
            omega
          | succ j' =>
            have hj' : j' < rest.length := by omega
            have hmem : rest[j'] ∈ rest := List.getElem_mem hj'
            rw [List.getElem_cons_succ] at hdj
            simp [parsedDelta, hall _ hmem] at hdj
        · intro j hj hjk
          omega
      | some pair =>
        obtain ⟨d2, e2⟩ := pair
        rw [harg] at h
        dsimp only at h
        obtain ⟨k2, hk2, hke2, hpd2, hmin2, hfirst2⟩ := ih d2 e2 harg
        by_cases hdd : |r - elapsed| ≤ d2
        · rw [if_pos hdd] at h
          have hde : |r - elapsed| = d ∧ a = e := by simpa using h
          obtain ⟨hd, he⟩ := hde
          refine ⟨0, by simp, by simpa using he, ?_, ?_, ?_⟩
          · rw [← he]
            simp [parsedDelta, hpe, hd]
          · intro j hj dj hdj
            cases j with
            | zero =>
              simp [parsedDelta, hpe] at hdj
              omega
            | succ j' =>
              have := hmin2 j' (by omega) dj (by simpa using hdj)
              omega
          · intro j hj hjk
            omega
        · rw [if_neg hdd] at h
          have hde : d2 = d ∧ e2 = e := by simpa using h
          obtain ⟨hd, he⟩ := hde
          subst hd
          subst he
          refine ⟨k2 + 1, Nat.succ_lt_succ hk2, by simpa using hke2, hpd2, ?_, ?_⟩
          · intro j hj dj hdj
            cases j with
            | zero =>
              simp [parsedDelta, hpe] at hdj
              omega
            | succ j' =>
              exact hmin2 j' (by omega) dj (by simpa using hdj)
          · intro j hj hjk dj hdj
            cases j with
            | zero =>
              simp [parsedDelta, hpe] at hdj
              omega
            | succ j' =>
              exact hfirst2 j' (by omega) (by omega) dj (by simpa using hdj)

/-- Claim C4: `getClosestHistorySummary` parses each history entry's runtime
string into seconds (`mm:ss` as m*60+s, `hh:mm:ss` as h*3600+m*60+s,
malformed entries skipped), and for a valid sample and anchor returns the
entry minimizing the absolute difference to the sample's elapsed runtime,
ties resolving to the first minimal entry in arrival order; with
streamStart=1000, a sample at timestamp=1090 and runtimes 01:00/01:45/02:00
it selects 01:45; it returns an empty result when no sample exists at the
index, no anchor exists, or no entry parses. -/
theorem closest_summary_selects_first_minimum :
    (getClosestHistorySummary
        [⟨some "01:00", some "s1"⟩, ⟨some "01:45", some "s2"⟩, ⟨some "02:00", some "s3"⟩]
        [⟨1090, 3⟩] (some 1000) 0 = ("s2", "01:45")) ∧
    (parseRuntimeSeconds (some "01:30") = some 90 ∧
      parseRuntimeSeconds (some "1:02:03") = some 3723 ∧
      parseRuntimeSeconds (some "bogus") = none ∧
      parseRuntimeSeconds (some "1:2:3:4") = none) ∧
    (∀ (hist : List HistoryEntry) (points : List RatePoint) (ss : Option Int) (i : Nat),
      points[i]? = none → getClosestHistorySummary hist points ss i = ("", "")) ∧
    (∀ (hist : List HistoryEntry) (points : List RatePoint) (ss : Option Int) (i : Nat),
      jsTruthyInt (anchorOf points ss) = false →
      getClosestHistorySummary hist points ss i = ("", "")) ∧
    (∀ (hist : List HistoryEntry) (points : List RatePoint) (ss : Option Int) (i : Nat),
      (∀ e ∈ hist, parseRuntimeSeconds e.timestamp = none) →
      getClosestHistorySummary hist points ss i = ("", "")) ∧
    (∀ (hist : List HistoryEntry) (points : List RatePoint) (ss : Option Int) (i : Nat)
        (pt : RatePoint), points[i]? = some pt →
      jsTruthyInt (anchorOf points ss) = true →
      ∀ (d : Int) (e : HistoryEntry),
        firstArgmin (elapsedFor pt (anchorOf points ss)) hist = some (d, e) →
        getClosestHistorySummary hist points ss i =
          (jsOrEmpty e.summary, jsOrEmpty e.timestamp) ∧
        ∃ k, ∃ hk : k < hist.length, hist[k] = e ∧
          parsedDelta (elapsedFor pt (anchorOf points ss)) e = some d ∧
          (∀ j (hj : j < hist.length) (dj : Int),
            parsedDelta (elapsedFor pt (anchorOf points ss)) hist[j] = some dj → d ≤ dj) ∧
          (∀ j (hj : j < hist.length), j < k →
            ∀ dj : Int,
              parsedDelta (elapsedFor pt (anchorOf points ss)) hist[j] = some dj → d < dj)) := by
  refine ⟨by decide, by decide, ?_, ?_, ?_, ?_⟩
  · intro hist points ss i hp
    simp [getClosestHistorySummary, hp]
  · intro hist points ss i ha
    cases hp : points[i]? with
    | none => simp [getClosestHistorySummary, hp]
    | some pt => simp [getClosestHistorySummary, hp, ha]
  · intro hist points ss i hall
    cases hp : points[i]? with
    | none => simp [getClosestHistorySummary, hp]
    | some pt =>
      cases ha : jsTruthyInt (anchorOf points ss) with
      | false => simp [getClosestHistorySummary, hp, ha]
      | true =>
        have hfa := (firstArgmin_eq_none_iff (elapsedFor pt (anchorOf points ss)) hist).2 hall
        simp only [getClosestHistorySummary, hp, ha, Bool.not_true, Bool.false_eq_true,
          if_false]
        rw [bestLoop_eq_firstArgmin, hfa]
  · intro hist points ss i pt hp ha d e hfa
    have hres : getClosestHistorySummary hist points ss i =
        (jsOrEmpty e.summary, jsOrEmpty e.timestamp) := by
      simp only [getClosestHistorySummary, hp, ha, Bool.not_true, Bool.false_eq_true, if_false]
      rw [bestLoop_eq_firstArgmin, hfa]
      rfl
    exact ⟨hres, firstArgmin_spec _ hist d e hfa⟩

theorem closest_summary_selects_first_minimum_witness :
    getClosestHistorySummary
        [⟨some "01:00", some "s1"⟩, ⟨some "01:45", some "s2"⟩, ⟨some "02:00", some "s3"⟩]
        [⟨1090, 3⟩] (some 1000) 0 = ("s2", "01:45") := by
  have h := closest_summary_selects_first_minimum.2.2.2.2.2
    [⟨some "01:00", some "s1"⟩, ⟨some "01:45", some "s2"⟩, ⟨some "02:00", some "s3"⟩]
    [⟨1090, 3⟩] (some 1000) 0 ⟨1090, 3⟩ (by decide) (by decide) 15
    ⟨some "01:45", some "s2"⟩ (by decide)
  exact h.1

/-! ## Claim theorems: reference parsing (C10) -/

theorem mem_of_isIdChar {c : Char} (h : isIdChar c = true) : c ∈ idAlphabet :=
  of_decide_eq_true h

theorem idAlphabet_ok :
    ∀ c ∈ idAlphabet,
      c.isWhitespace = false ∧ (c != '/') = true ∧ (c != ':') = true ∧ (c != '?') = true ∧
      (c != '#') = true ∧ (c != '&') = true ∧ (c != '=') = true ∧ (c != '@') = true := by
  decide

theorem validVideoId_facts {L : List Char} (h : validVideoId L = true) :
    L.length = 11 ∧ ∀ c ∈ L, isIdChar c = true := by
  simp only [validVideoId, Bool.and_eq_true, decide_eq_true_eq, List.all_eq_true] at h
  exact h

theorem dropWhile_of_forall_false {p : Char → Bool} :
    ∀ {l : List Char}, (∀ c ∈ l, p c = false) → l.dropWhile p = l := by
  intro l h
  cases l with
  | nil => rfl
  | cons c t => simp [List.dropWhile_cons, h c (List.mem_cons_self c t)]

theorem trimChars_of_forall_not_ws {l : List Char}
    (h : ∀ c ∈ l, c.isWhitespace = false) : trimChars l = l := by
  unfold trimChars
  rw [dropWhile_of_forall_false h,
    dropWhile_of_forall_false (fun c hc => h c (List.mem_reverse.1 hc)),
    List.reverse_reverse]

theorem splitOnChar_of_forall_ne (sep : Char) :
    ∀ {l : List Char}, (∀ c ∈ l, c ≠ sep) → splitOnChar sep l = [l] := by
  intro l
  induction l with
  | nil => intro _; rfl
  | cons c t ih =>
    intro h
    have hc : c ≠ sep := h c (List.mem_cons_self c t)
    simp only [splitOnChar, ih (fun x hx => h x (List.mem_cons_of_mem c hx))]
    rw [if_neg hc]

/-- The id-alphabet side conditions needed along each URL form. -/
theorem id_chars_clean {L : List Char} (hall : ∀ c ∈ L, isIdChar c = true) :
    (∀ c ∈ L, c.isWhitespace = false) ∧
    L.takeWhile (fun c => c != '?' && c != '#') = L ∧
    L.takeWhile (fun c => c != '#') = L ∧
    (∀ c ∈ L, c ≠ '&') ∧ (∀ c ∈ L, c ≠ '/') := by
  refine ⟨fun c hc => (idAlphabet_ok c (mem_of_isIdChar (hall c hc))).1,
    List.takeWhile_eq_self_iff.mpr (fun c hc => ?_),
    List.takeWhile_eq_self_iff.mpr (fun c hc => ?_), fun c hc => ?_, fun c hc => ?_⟩
  · have h := idAlphabet_ok c (mem_of_isIdChar (hall c hc))
    simp [h.2.2.2.1, h.2.2.2.2.1]
  · exact (idAlphabet_ok c (mem_of_isIdChar (hall c hc))).2.2.2.2.1
  · have h := (idAlphabet_ok c (mem_of_isIdChar (hall c hc))).2.2.2.2.2.1
    simpa using h
  · have h := (idAlphabet_ok c (mem_of_isIdChar (hall c hc))).2.1
    simpa using h

theorem parseURL_shortlink (L : List Char)
    (hq : L.takeWhile (fun c => c != '?' && c != '#') = L) :
    parseURL ("https://youtu.be/".toList ++ L) =
      some ⟨"youtu.be".toList, '/' :: L, []⟩ := by
  have h1 : parseURL ("https://youtu.be/".toList ++ L) =
      some ⟨"youtu.be".toList,
        '/' :: L.takeWhile (fun c => c != '?' && c != '#'),
        queryOf (('/' :: L).drop
          ('/' :: L.takeWhile (fun c => c != '?' && c != '#')).length)⟩ := rfl
  rw [h1, hq, List.drop_length]
  rfl

theorem parseURL_watch (q : List Char) :
    parseURL ("https://www.youtube.com/watch?".toList ++ q) =
      some ⟨"www.youtube.com".toList, "/watch".toList,
        q.takeWhile (fun c => c != '#')⟩ := rfl

theorem parseURL_live (L : List Char)
    (hq : L.takeWhile (fun c => c != '?' && c != '#') = L) :
    parseURL ("https://www.youtube.com/live/".toList ++ L) =
      some ⟨"www.youtube.com".toList, '/' :: 'l' :: 'i' :: 'v' :: 'e' :: '/' :: L, []⟩ := by
  have h1 : parseURL ("https://www.youtube.com/live/".toList ++ L) =
      some ⟨"www.youtube.com".toList,
        '/' :: 'l' :: 'i' :: 'v' :: 'e' :: '/' :: L.takeWhile (fun c => c != '?' && c != '#'),
        queryOf (('/' :: 'l' :: 'i' :: 'v' :: 'e' :: '/' :: L).drop
          ('/' :: 'l' :: 'i' :: 'v' :: 'e' :: '/' ::
            L.takeWhile (fun c => c != '?' && c != '#')).length)⟩ := rfl
  rw [h1, hq, List.drop_length]
  rfl

theorem parseVideoIdL_bare (L : List Char) (hv : validVideoId L = true) :
    parseVideoIdL L = L := by
  obtain ⟨hlen, hall⟩ := validVideoId_facts hv
  have hne : L.isEmpty = false := by
    cases L with
    | nil => simp at hlen
    | cons c t => rfl
  have htrim : trimChars L = L :=
    trimChars_of_forall_not_ws (id_chars_clean hall).1
  simp [parseVideoIdL, hne, htrim, hv]

theorem parseVideoIdL_shortlink (L : List Char) (hv : validVideoId L = true) :
    parseVideoIdL ("https://youtu.be/".toList ++ L) = L := by
  obtain ⟨hlen, hall⟩ := validVideoId_facts hv
  have hclean := id_chars_clean hall
  have hnws : ∀ c ∈ "https://youtu.be/".toList ++ L, c.isWhitespace = false := by
    intro c hc
    rcases List.mem_append.1 hc with h | h
    · exact (by decide : ∀ x ∈ "https://youtu.be/".toList, x.isWhitespace = false) c h
    · exact hclean.1 c h
  have htrim : trimChars ("https://youtu.be/".toList ++ L) = "https://youtu.be/".toList ++ L :=
    trimChars_of_forall_not_ws hnws
  have hvalid : validVideoId ("https://youtu.be/".toList ++ L) = false := by
    have h28 : ("https://youtu.be/".toList ++ L).length = 28 := by
      simp [hlen]
    simp [validVideoId, h28]
  have hurl := parseURL_shortlink L hclean.2.1
  have hempty : ("https://youtu.be/".toList ++ L).isEmpty = false := rfl
  have hhost : containsSub "youtu.be".toList "youtu.be".toList = true := by decide
  simp only [parseVideoIdL, hempty, Bool.false_eq_true, if_false, htrim, hvalid, hurl, hhost,
    if_true]
  rfl

theorem parseVideoIdL_watch (L : List Char) (hv : validVideoId L = true) :
    parseVideoIdL ("https://www.youtube.com/watch?v=".toList ++ L) = L := by
  obtain ⟨hlen, hall⟩ := validVideoId_facts hv
  have hclean := id_chars_clean hall
  have hnws : ∀ c ∈ "https://www.youtube.com/watch?v=".toList ++ L, c.isWhitespace = false := by
    intro c hc
    rcases List.mem_append.1 hc with h | h
    · exact (by decide :
        ∀ x ∈ "https://www.youtube.com/watch?v=".toList, x.isWhitespace = false) c h
    · exact hclean.1 c h
  have htrim : trimChars ("https://www.youtube.com/watch?v=".toList ++ L) =
      "https://www.youtube.com/watch?v=".toList ++ L :=
    trimChars_of_forall_not_ws hnws
  have hvalid : validVideoId ("https://www.youtube.com/watch?v=".toList ++ L) = false := by
    have h43 : ("https://www.youtube.com/watch?v=".toList ++ L).length = 43 := by
      simp [hlen]
    simp [validVideoId, h43]
  have hshape : "https://www.youtube.com/watch?v=".toList ++ L =
      "https://www.youtube.com/watch?".toList ++ ('v' :: '=' :: L) := rfl
  have hurl : parseURL ("https://www.youtube.com/watch?v=".toList ++ L) =
      some ⟨"www.youtube.com".toList, "/watch".toList, 'v' :: '=' :: L⟩ := by
    rw [hshape, parseURL_watch]
    have : ('v' :: '=' :: L).takeWhile (fun c => c != '#') = 'v' :: '=' :: L := by
      show 'v' :: '=' :: L.takeWhile (fun c => c != '#') = 'v' :: '=' :: L
      rw [hclean.2.2.1]
    rw [this]
  have hsplit : splitOnChar '&' ('v' :: '=' :: L) = ['v' :: '=' :: L] := by
    apply splitOnChar_of_forall_ne
    intro c hc
    rcases List.mem_cons.1 hc with h | h
    · subst h; decide
    rcases List.mem_cons.1 h with h | h
    · subst h; decide
    · exact hclean.2.2.2.1 c h
  have hget : getParam ⟨"www.youtube.com".toList, "/watch".toList, 'v' :: '=' :: L⟩
      "v".toList = some L := by
    unfold getParam queryPairs
    rw [hsplit]
    rfl
  have hempty : ("https://www.youtube.com/watch?v=".toList ++ L).isEmpty = false := rfl
  have hhost : containsSub "youtu.be".toList "www.youtube.com".toList = false := by decide
  simp only [parseVideoIdL, hempty, Bool.false_eq_true, if_false, htrim, hvalid, hurl, hhost,
    hget]

theorem parseVideoIdL_live (L : List Char) (hv : validVideoId L = true) :
    parseVideoIdL ("https://www.youtube.com/live/".toList ++ L) = L := by
  obtain ⟨hlen, hall⟩ := validVideoId_facts hv
  have hclean := id_chars_clean hall
  have hnws : ∀ c ∈ "https://www.youtube.com/live/".toList ++ L, c.isWhitespace = false := by
    intro c hc
    rcases List.mem_append.1 hc with h | h
    · exact (by decide :
        ∀ x ∈ "https://www.youtube.com/live/".toList, x.isWhitespace = false) c h
    · exact hclean.1 c h
  have htrim : trimChars ("https://www.youtube.com/live/".toList ++ L) =
      "https://www.youtube.com/live/".toList ++ L :=
    trimChars_of_forall_not_ws hnws
  have hvalid : validVideoId ("https://www.youtube.com/live/".toList ++ L) = false := by
    have h40 : ("https://www.youtube.com/live/".toList ++ L).length = 40 := by
      simp [hlen]
    simp [validVideoId, h40]
  have hurl := parseURL_live L hclean.2.1
  have hLsplit : splitOnChar '/' L = [L] := splitOnChar_of_forall_ne '/' hclean.2.2.2.2
  have hne : L.isEmpty = false := by
    cases L with
    | nil => simp at hlen
    | cons c t => rfl
  have hne2 : L ≠ [] := by
    cases L with
    | nil => simp at hlen
    | cons c t => simp
  have hsegs : pathSegs ⟨"www.youtube.com".toList,
      '/' :: 'l' :: 'i' :: 'v' :: 'e' :: '/' :: L, []⟩ = [['l', 'i', 'v', 'e'], L] := by
    unfold pathSegs
    simp only [splitOnChar, hLsplit]
    simp [hne2]
  have hlive : liveNext [['l', 'i', 'v', 'e'], L] = some L := by
    simp only [liveNext]
    rw [if_pos (by decide)]
    simp [hne2]
  have hempty : ("https://www.youtube.com/live/".toList ++ L).isEmpty = false := rfl
  have hhost : containsSub "youtu.be".toList "www.youtube.com".toList = false := by decide
  have hget : getParam ⟨"www.youtube.com".toList,
      '/' :: 'l' :: 'i' :: 'v' :: 'e' :: '/' :: L, []⟩ "v".toList = none := rfl
  simp only [parseVideoIdL, hempty, Bool.false_eq_true, if_false, htrim, hvalid, hurl, hhost,
    hget, hsegs, hlive]

/-- Claim C10: every valid 11-character identifier is returned unchanged by
reference parsing whether presented bare, in a standard watch URL, in the
youtu.be short-link form, or in a live-path URL; a string that is neither a
bare valid identifier nor a parseable URL parses to the empty string, as does
a parseable URL carrying none of the three identifier positions (youtu.be
host, `v` query parameter, `live` path segment followed by another segment). -/
theorem reference_parsing_roundtrip :
    (∀ id : String, validVideoId id.data = true →
      parseVideoId id = id ∧
      parseVideoId ("https://www.youtube.com/watch?v=" ++ id) = id ∧
      parseVideoId ("https://youtu.be/" ++ id) = id ∧
      parseVideoId ("https://www.youtube.com/live/" ++ id) = id) ∧
    (∀ s : String, validVideoId (trimChars s.data) = false →
      parseURL (trimChars s.data) = none → parseVideoId s = "") ∧
    (∀ (s : String) (u : UrlParts), validVideoId (trimChars s.data) = false →
      parseURL (trimChars s.data) = some u →
      containsSub "youtu.be".toList u.hostname = false →
      getParam u "v".toList = none →
      liveNext (pathSegs u) = none →
      parseVideoId s = "") := by
  refine ⟨?_, ?_, ?_⟩
  · intro id hv
    have hmk : String.mk id.data = id := rfl
    refine ⟨?_, ?_, ?_, ?_⟩
    · rw [parseVideoId, parseVideoIdL_bare id.data hv, hmk]
    · rw [parseVideoId, String.data_append,
        show ("https://www.youtube.com/watch?v=" : String).data =
          "https://www.youtube.com/watch?v=".toList from rfl,
        parseVideoIdL_watch id.data hv, hmk]
    · rw [parseVideoId, String.data_append,
        show ("https://youtu.be/" : String).data = "https://youtu.be/".toList from rfl,
        parseVideoIdL_shortlink id.data hv, hmk]
    · rw [parseVideoId, String.data_append,
        show ("https://www.youtube.com/live/" : String).data =
          "https://www.youtube.com/live/".toList from rfl,
        parseVideoIdL_live id.data hv, hmk]
  · intro s h1 h2
    cases he : s.data.isEmpty with
    | true => simp [parseVideoId, parseVideoIdL, he]
    | false => simp [parseVideoId, parseVideoIdL, he, h1, h2]
  · intro s u h1 h2 h3 h4 h5
    cases he : s.data.isEmpty with
    | true => simp [parseVideoId, parseVideoIdL, he]
    | false =>
      have h3c : containsSub ['y', 'o', 'u', 't', 'u', '.', 'b', 'e'] u.hostname = false := h3
      have h4c : getParam u ['v'] = none := h4
      simp [parseVideoId, parseVideoIdL, he, h1, h2, h3c, h4c, h5]

theorem reference_parsing_roundtrip_witness :
    parseVideoId "dQw4w9WgXcQ" = "dQw4w9WgXcQ" ∧
    parseVideoId "https://www.youtube.com/watch?v=dQw4w9WgXcQ" = "dQw4w9WgXcQ" ∧
    parseVideoId "https://youtu.be/dQw4w9WgXcQ" = "dQw4w9WgXcQ" ∧
    parseVideoId "https://www.youtube.com/live/dQw4w9WgXcQ" = "dQw4w9WgXcQ" := by
  have h := reference_parsing_roundtrip.1 "dQw4w9WgXcQ" (by decide)
  have hw : ("https://www.youtube.com/watch?v=" ++ "dQw4w9WgXcQ" : String) =
      "https://www.youtube.com/watch?v=dQw4w9WgXcQ" := by decide
  have hs : ("https://youtu.be/" ++ "dQw4w9WgXcQ" : String) =
      "https://youtu.be/dQw4w9WgXcQ" := by decide
  have hl : ("https://www.youtube.com/live/" ++ "dQw4w9WgXcQ" : String) =
      "https://www.youtube.com/live/dQw4w9WgXcQ" := by decide
  exact ⟨h.1, hw ▸ h.2.1, hs ▸ h.2.2.1, hl ▸ h.2.2.2⟩

end Spectator
